import Mathlib

/-!
Verification development for the rsc.io/mailgun utilities.

Text handled byte-by-byte in the Go source (address strings, input lines,
header blocks) is embedded as `List Char`; all inputs of interest are ASCII,
where Go's byte indexing and Lean's character indexing coincide.  Functions
from the Go standard library that the repository merely calls
(`mail.ParseAddress`, `mail.ParseAddressList`, `json.Unmarshal`, the HTTP
client) are taken as parameters of the embedded functions, so every theorem
quantifies over their behaviour.
-/

namespace Mailgun

/-- A line / piece of text, as a list of characters (Go: `[]byte` / `string`). -/
abbrev Line := List Char

/-- The special characters tested by `ParseAddress`
(Go: `strings.ContainsAny(addr, "<>()\" \t\r\n")`). -/
def specialChars : Line := ['<', '>', '(', ')', '"', ' ', '\t', '\r', '\n']

/-- Go `strings.ContainsAny(s, chars)`. -/
def containsAny (s chars : Line) : Bool :=
  s.any (fun c => chars.contains c)

/-- Whitespace as recognised by Go `strings.TrimSpace` (ASCII part). -/
def isSpaceChar (c : Char) : Bool :=
  c = ' ' || c = '\t' || c = '\n' || c = '\x0b' || c = '\x0c' || c = '\r'

/-- Go `strings.TrimSpace`: drop whitespace from both ends. -/
def trimSpace (l : Line) : Line :=
  ((l.dropWhile isSpaceChar).reverse.dropWhile isSpaceChar).reverse

/-- Go `strings.LastIndex(l, c)` specialised to a one-character needle. -/
def lastIndexOf (l : Line) (c : Char) : Option Nat :=
  (l.reverse.findIdx? (· = c)).map (fun j => l.length - 1 - j)

/-- Go `net/mail.Address`: an optional display name plus an address ("mailbox"). -/
structure MailAddress where
  name : Line
  address : Line
deriving DecidableEq

/-- Embedding of `mg.ParseAddress` (mg.go:85).  `strict` stands for the Go
standard library's `mail.ParseAddress`, which the repository delegates to in
the final branch. -/
def ParseAddress (strict : Line → Except String MailAddress) (addr : Line) :
    Except String MailAddress :=
  if containsAny addr specialChars = false then
    .ok { name := [], address := addr }
  else if addr.getLast? = some '>' ∧ addr.head? ≠ some '"' then
    match lastIndexOf addr '<' with
    | some i => .ok { name := trimSpace (addr.take i), address := (addr.drop i).dropLast }
    | none => strict addr
  else
    strict addr

/-- A stand-in for the strict RFC parser that rejects every input; used only to
evaluate `ParseAddress` on inputs that never reach the strict branch. -/
def strictReject : Line → Except String MailAddress :=
  fun _ => .error "mail: parse failure"

/-- Embedding of `mg.FixLocalAddr` (mg.go:149): append `"@" + Domain` when the
address has no `@`.  The configured domain is passed explicitly. -/
def FixLocalAddr (domain : Line) (a : MailAddress) : MailAddress :=
  if '@' ∈ a.address then a
  else { a with address := a.address ++ '@' :: domain }

/-- Embedding of `mg.FixLocalAddrs` (mg.go:155). -/
def FixLocalAddrs (domain : Line) (list : List MailAddress) : List MailAddress :=
  list.map (FixLocalAddr domain)

/-- Embedding of the state of `mg.countingReader` (mg.go:217): a byte counter
plus the not-yet-consumed content of the wrapped reader.  The wrapped reader
here is the read end of the transport pipe carrying the encoded payload. -/
structure countingReader where
  total : Nat
  rest : String
deriving DecidableEq

/-- Reading the counting reader to exhaustion: every byte that passes through
it is added to `total` (mg.go:222). -/
def readAllCounting (c : countingReader) : String × countingReader :=
  (c.rest, { total := c.total + c.rest.length, rest := "" })

/-- `io.Copy(ioutil.Discard, body)` (mg.go:245) reads the *underlying* reader
directly, bypassing the counting wrapper: the payload is consumed but `total`
is not advanced.  Returns the number of bytes drained. -/
def drainDirect (c : countingReader) : Nat × countingReader :=
  (c.rest.length, { c with rest := "" })

/-- The observable parts of an HTTP response as `runPost` consumes them:
`resp.StatusCode`, `resp.Status`, the bytes `ioutil.ReadAll` obtains from
`resp.Body`, and the error, if any, that `ReadAll` reports after them. -/
structure HTTPResponse where
  status : Nat
  statusText : String
  body : String
  readErr : Option String
deriving DecidableEq

/-- The JSON success payload decoded at mg.go:271. -/
structure MailResp where
  message : String
  id : String
deriving DecidableEq

/-- How one call of `runPost` ends: synthetic success in dry-run mode, a
logged success, or `mg.Die` with the given message. -/
inductive PostOutcome where
  | disabledOK
  | sentOK (resp : MailResp)
  | dieError (msg : String)
deriving DecidableEq

/-- Trace of one `runPost` execution: the request body transmitted over the
network (if any network call happened), the final value of the byte counter,
the number of payload bytes pulled out of the conduit after request setup, and
the outcome. -/
structure PostTrace where
  networkSent : Option String
  crTotal : Nat
  drained : Nat
  outcome : PostOutcome
deriving DecidableEq

/-- Embedding of `mg.runPost` (mg.go:228).  `unmarshal` stands for
`json.Unmarshal` into `{message, id}`, `net` for `http.DefaultClient.Do`
(mapping the transmitted request body to either a transport error or a
response), and `payload` is the full encoded multipart body available on the
pipe.  `httputil.DumpRequest(req, true)` in debug mode reads the request body
through the counting reader and substitutes the buffered copy. -/
def runPost (debugHTTP disableMail : Bool)
    (unmarshal : String → Except String MailResp)
    (net : String → Except String HTTPResponse)
    (payload : String) : PostTrace :=
  let cr0 : countingReader := { total := 0, rest := payload }
  let dump := if debugHTTP then readAllCounting cr0 else ("", cr0)
  let dumped := dump.1
  let cr1 := dump.2
  if disableMail then
    let d := drainDirect cr1
    { networkSent := none, crTotal := d.2.total, drained := d.1, outcome := .disabledOK }
  else
    let q := readAllCounting cr1
    let sent := if debugHTTP then dumped else q.1
    let cr2 := q.2
    match net sent with
    | .error e =>
        { networkSent := some sent, crTotal := cr2.total, drained := q.1.length,
          outcome := .dieError ("sending mail: " ++ e) }
    | .ok resp =>
        if resp.status ≠ 200 then
          { networkSent := some sent, crTotal := cr2.total, drained := q.1.length,
            outcome := .dieError ("sending mail: " ++ resp.statusText ++ "\n" ++ resp.body) }
        else
          match resp.readErr with
          | some e =>
              { networkSent := some sent, crTotal := cr2.total, drained := q.1.length,
                outcome := .dieError ("sending mail: " ++ e ++ "\n" ++ resp.body) }
          | none =>
              match unmarshal resp.body with
              | .error e =>
                  { networkSent := some sent, crTotal := cr2.total, drained := q.1.length,
                    outcome := .dieError
                      ("sending mail: invalid JSON response: " ++ e ++ "\n" ++ resp.body) }
              | .ok m =>
                  { networkSent := some sent, crTotal := cr2.total, drained := q.1.length,
                    outcome := .sentOK m }

/-- Concrete server response used to witness C5: HTTP 500 with plain text. -/
def resp500 : HTTPResponse :=
  { status := 500, statusText := "500 Internal Server Error", body := "oops",
    readErr := none }

/-- Network stub returning `resp500` for every request. -/
def net500 : String → Except String HTTPResponse := fun _ => .ok resp500

/-- JSON-decoder stub that rejects every body. -/
def unmarshalFail : String → Except String MailResp := fun _ => .error "bad"

/-- A parsed message header as `mail.ReadMessage` hands it to
mailgun-sendmail: a finite map from canonicalized field names (so `Bcc`, not
`BCC`) to the list of that field's values, embedded as an association list
with no duplicate keys.  Values are the raw value text of each header line. -/
abbrev Header := List (Line × List Line)

/-- Association-list lookup returning the values bound to key `k`. -/
def hlookup (k : Line) : Header → Option (List Line)
  | [] => none
  | kv :: rest => if kv.1 = k then some kv.2 else hlookup k rest

/-- Go map read `msg.Header[k]`: the nil slice when the key is absent. -/
def hget (h : Header) (k : Line) : List Line :=
  (hlookup k h).getD []

/-- Go `delete(msg.Header, k)`. -/
def hdelete (h : Header) (k : Line) : Header :=
  h.filter (fun kv => kv.1 ≠ k)

/-- Go map assignment `msg.Header[k] = v`. -/
def hset (h : Header) (k : Line) (v : List Line) : Header :=
  hdelete h k ++ [(k, v)]

/-- Go `mail.Header.Get(k)`: the first value of the field, or empty. -/
def headerGet (h : Header) (k : Line) : Line :=
  (hget h k).headD []

/-- The header fixups mailgun-sendmail applies before rendering
(part_000:175-178): add a `From` field holding the resolved sender when the
input had none, then delete any `Bcc` field. -/
def prepareHeader (h : Header) (fromStr : Line) : Header :=
  let h1 := if (hget h "From".data).length = 0 then hset h "From".data [fromStr] else h
  hdelete h1 "Bcc".data

/-- Embedding of the key collection and sort at part_000:181-185: the map's
keys, sorted as by `sort.Strings` (lexicographic order), modelled with
insertion sort under the lexicographic order on character lists. -/
def renderKeys (h : Header) : List Line :=
  List.insertionSort (· ≤ ·) (h.map (·.1))

/-- Embedding of the header rendering loop at part_000:186-191: for each key in
sorted order, one `k: v\n` per value, then one final bare newline separating
the header block from the body. -/
def hdrBlock (h : Header) : Line :=
  ((renderKeys h).flatMap (fun k => (hget h k).flatMap (fun v => k ++ ": ".data ++ v ++ ['\n'])))
    ++ ['\n']

/-- The individual header lines of `hdrBlock`, without their terminators. -/
def hdrLines (h : Header) : List Line :=
  (renderKeys h).flatMap (fun k => (hget h k).map (fun v => k ++ ": ".data ++ v))

/-- Embedding of `mg.Message` (mg.go:138). -/
structure Message where
  From : MailAddress
  To : List MailAddress
  CC : List MailAddress
  BCC : List MailAddress
  Subject : Line
  Body : Line
  Attachments : List Line

/-- One part of the multipart form payload: a plain field written with
`WriteField`, or a file part created with `CreateFormFile`. -/
inductive Part where
  | field (name value : Line)
  | filePart (name filename : Line)
deriving DecidableEq

/-- Go `filepath.Base` for slash-separated paths. -/
def filepathBase (p : Line) : Line :=
  if p = [] then ['.']
  else
    let q := (p.reverse.dropWhile (· = '/')).reverse
    if q = [] then ['/'] else (q.splitOn '/').getLastD q

/-- The sequence of multipart parts written by `mg.Mail` (mg.go:161-199) to
the structured `messages` endpoint, after the local-domain fixups.  `astr`
stands for `mail.Address.String`. -/
def MailParts (domain : Line) (astr : MailAddress → Line) (msg : Message) : List Part :=
  [Part.field "from".data (astr (FixLocalAddr domain msg.From))]
    ++ (FixLocalAddrs domain msg.To).map (fun a => Part.field "to".data (astr a))
    ++ (FixLocalAddrs domain msg.CC).map (fun a => Part.field "cc".data (astr a))
    ++ (FixLocalAddrs domain msg.BCC).map (fun a => Part.field "bcc".data (astr a))
    ++ (if msg.Subject ≠ [] then [Part.field "subject".data msg.Subject] else [])
    ++ [Part.field "text".data msg.Body]
    ++ msg.Attachments.map (fun f => Part.filePart "attachment".data (filepathBase f))

/-- The recipient list `allTo` that `mg.Mail` passes to the poster
(mg.go:167-170): To, CC and BCC together, after the fixups. -/
def MailRecipients (domain : Line) (msg : Message) : List MailAddress :=
  FixLocalAddrs domain msg.To ++ FixLocalAddrs domain msg.CC ++ FixLocalAddrs domain msg.BCC

/-- The parts written by `mg.MailMIME` (mg.go:292-306) to the raw
`messages.mime` endpoint: one `to` field per recipient, then the rendered
message as a single file part. -/
def MailMIMEParts (domain : Line) (astr : MailAddress → Line) (tos : List MailAddress) :
    List Part :=
  (FixLocalAddrs domain tos).map (fun a => Part.field "to".data (astr a))
    ++ [Part.filePart "message".data "mime.msg".data]

/-- One iteration of the `-t` recipient harvesting loop of mailgun-sendmail
(part_000:161-170): skip the key when the header lacks it, otherwise parse the
field's first value as an address list (`mail.Header.AddressList`, passed in
as `parseList`) and append the result. -/
def extractStep (parseList : Line → Except String (List MailAddress)) (h : Header)
    (acc : List MailAddress) (key : Line) : Except String (List MailAddress) :=
  if (hget h key).length = 0 then .ok acc
  else
    match parseList (headerGet h key) with
    | .error e => .error e
    | .ok addrs => .ok (acc ++ addrs)

/-- The whole `-t` harvesting loop over the keys `To`, `Cc`, `Bcc`. -/
def extractRecipients (parseList : Line → Except String (List MailAddress))
    (h : Header) (to0 : List MailAddress) : Except String (List MailAddress) :=
  ["To".data, "Cc".data, "Bcc".data].foldlM (extractStep parseList h) to0

/-- Why an ingestion loop stopped consuming its input. -/
inductive CopyStop where
  | eofStop
  | dotStop
  | readErrStop
deriving DecidableEq

/-- Embedding of `msgCopy` (part_000:207-235).  The input stream is given as
the list of lines `bufio.Reader.ReadBytes` would deliver (each non-empty and
ending in a newline except possibly the last); an explicit empty line stands
for a zero-byte read with an error, which makes `msgCopy` die.  Returns the
emitted byte stream, the lines left unconsumed, and why the loop stopped.
While `hdr` holds, the first line that neither starts with a space or tab nor
contains a `:` flips to body mode and, unless it is itself blank, a synthetic
blank line is written before it; a line missing its final newline gets one
appended. -/
def msgCopyGo (isTTY iflag : Bool) : Bool → List Line → Line × List Line × CopyStop
  | _, [] => ([], [], .eofStop)
  | hdr, line :: rest =>
    if line = [] then ([], line :: rest, .readErrStop)
    else if isTTY = true ∧ iflag = false ∧ line = ['.', '\n'] then
      ([], rest, .dotStop)
    else if hdr = true ∧ line.head? ≠ some ' ' ∧ line.head? ≠ some '\t' ∧ ':' ∉ line then
      let t := msgCopyGo isTTY iflag false rest
      ((if line.head? ≠ some '\n' then ['\n'] else []) ++ line
        ++ (if line.getLast? ≠ some '\n' then ['\n'] else []) ++ t.1,
       t.2.1, t.2.2)
    else
      let t := msgCopyGo isTTY iflag hdr rest
      (line ++ (if line.getLast? ≠ some '\n' then ['\n'] else []) ++ t.1, t.2.1, t.2.2)

/-- `msgCopy` starts in header mode. -/
def msgCopy (isTTY iflag : Bool) (input : List Line) : Line × List Line × CopyStop :=
  msgCopyGo isTTY iflag true input

/-- Split a byte stream into its lines, each keeping its trailing newline. -/
def splitLines : Line → List Line
  | [] => []
  | c :: rest =>
    let ls := splitLines rest
    if c = '\n' then ['\n'] :: ls
    else
      match ls with
      | [] => [[c]]
      | l :: ls2 => (c :: l) :: ls2

/-- The header block of a rendered message stream: its lines up to the first
blank line, the boundary `mail.ReadMessage` uses downstream. -/
def headerBlockLines (s : Line) : List Line :=
  (splitLines s).takeWhile (fun l => l ≠ ['\n'])

/-- State accumulated by the mailgun-mail `-t` header harvesting loop
(mg.go:469-513): the subject and recipient lists gathered so far plus the
body bytes written when the loop hits a body-start line. -/
structure TState where
  subject : Line
  toList : List MailAddress
  cc : List MailAddress
  bcc : List MailAddress
  body : Line
deriving DecidableEq

/-- Why the `-t` loop stopped: end of input, the normal break at the first
non-header line, the `.` line on a TTY jumping straight to sending,
`mg.Die` on an unparsable address list, or the nil-map append reached after
an unknown field whose value still parses (`list` is nil there). -/
inductive TStop where
  | eofStop
  | headerEnd
  | gotoSend
  | died (key : Line) (err : String)
  | panicked
deriving DecidableEq

/-- Embedding of the `-t` loop of mailgun-mail (mg.go:469-513).  `parseList`
stands for `mail.ParseAddressList`.  Each line with a `:` is split at the
first `:`; a `subject` field overwrites the subject, recipient fields append
the parsed addresses, any other field falls through to the address parse on a
nil list.  A line without `:` ends the loop, writing it to the body first when
it is neither empty nor blank — unless it is the TTY dot line, which jumps to
sending. -/
def tLoop (isTTY : Bool) (parseList : Line → Except String (List MailAddress)) :
    TState → List Line → TState × List Line × TStop
  | st, [] => (st, [], .eofStop)
  | st, line :: rest =>
    match line.findIdx? (· = ':') with
    | none =>
      if line ≠ [] ∧ line.head? ≠ some '\n' then
        if line.head? = some '.' ∧ (line.length = 1 ∨ line = ['.', '\n']) ∧ isTTY = true then
          (st, rest, .gotoSend)
        else ({ st with body := st.body ++ line }, rest, .headerEnd)
      else (st, rest, .headerEnd)
    | some i =>
      let key := line.take i
      let val := trimSpace (line.drop (i + 1))
      let lkey := key.map Char.toLower
      if lkey = "subject".data then
        tLoop isTTY parseList { st with subject := val } rest
      else if lkey = "to".data then
        match parseList val with
        | .error e => (st, rest, .died "To".data e)
        | .ok addrs => tLoop isTTY parseList { st with toList := st.toList ++ addrs } rest
      else if lkey = "cc".data then
        match parseList val with
        | .error e => (st, rest, .died "CC".data e)
        | .ok addrs => tLoop isTTY parseList { st with cc := st.cc ++ addrs } rest
      else if lkey = "bcc".data then
        match parseList val with
        | .error e => (st, rest, .died "BCC".data e)
        | .ok addrs => tLoop isTTY parseList { st with bcc := st.bcc ++ addrs } rest
      else
        match parseList val with
        | .error e => (st, rest, .died key e)
        | .ok _ => (st, rest, .panicked)

/-- Embedding of the TTY body loop of mailgun-mail (mg.go:516-531): accumulate
lines until the `.` line or end of input; the `.` line is not written. -/
def bodyLoopTTY : List Line → Line × List Line
  | [] => ([], [])
  | line :: rest =>
    if line = ['.', '\n'] then ([], rest)
    else
      let t := bodyLoopTTY rest
      (line ++ t.1, t.2)

/-- C3: on an input that ends with `>`, does not start with `"` and contains a
`<` — the code comment's own motivating example `Foo (Bar) <baz@quux.com>` —
the informal branch of `ParseAddress` returns the display name as claimed, but
the returned mailbox is `addr[i : len(addr)-1]`, which still contains the
leading `<` (the slice starts at the index of `<` itself), not the text
strictly between the angle brackets. -/
theorem C3_informal_branch_keeps_open_bracket :
    ParseAddress strictReject ("Foo (Bar) <baz@quux.com>".data)
      = .ok { name := "Foo (Bar)".data, address := "<baz@quux.com".data }
    ∧ "<baz@quux.com".data ≠ "baz@quux.com".data := by
  constructor
  · rfl
  · decide

/-- C10: the empty string contains none of the special characters, so
`ParseAddress` takes the bare-mailbox path and succeeds with an empty display
name and an empty mailbox, whatever the strict parser would do. -/
theorem C10_parse_empty_string_succeeds (strict : Line → Except String MailAddress) :
    ParseAddress strict [] = .ok { name := [], address := [] } := rfl

/-- C4 counterexample: applying `FixLocalAddr` a second time does not append
the domain suffix again — the result of the first application contains `@`, so
the second application is a no-op, contradicting the claim that the second
application doubles the suffix. -/
theorem C4_second_application_counterexample :
    FixLocalAddr "example.com".data
        (FixLocalAddr "example.com".data { name := [], address := "user".data })
      = FixLocalAddr "example.com".data { name := [], address := "user".data }
    ∧ (FixLocalAddr "example.com".data
        (FixLocalAddr "example.com".data { name := [], address := "user".data })).address
      = "user@example.com".data
    ∧ (FixLocalAddr "example.com".data
        (FixLocalAddr "example.com".data { name := [], address := "user".data })).address
      ≠ "user@example.com@example.com".data := by
  refine ⟨by decide, by decide, by decide⟩

/-- C4 (amended): for an address lacking `@`, one application of
`FixLocalAddr` appends `@domain` exactly once (the result has exactly one `@`
when the domain itself has none), and a second application leaves the address
unchanged: the operation is idempotent. -/
theorem C4_applyLocalDomain_suffix_and_idempotent (domain : Line) (a : MailAddress)
    (h : '@' ∉ a.address) :
    (FixLocalAddr domain a).address = a.address ++ '@' :: domain
    ∧ ('@' ∉ domain → (FixLocalAddr domain a).address.count '@' = 1)
    ∧ FixLocalAddr domain (FixLocalAddr domain a) = FixLocalAddr domain a := by
  have hfix : FixLocalAddr domain a = { a with address := a.address ++ '@' :: domain } := by
    unfold FixLocalAddr
    simp [h]
  refine ⟨by rw [hfix], ?_, ?_⟩
  · intro hd
    rw [hfix]
    simp [List.count_append, List.count_cons,
      List.count_eq_zero.mpr h, List.count_eq_zero.mpr hd]
  · rw [hfix]
    unfold FixLocalAddr
    simp

/-- Witness for C4: the amended statement instantiated at a concrete
unqualified address and domain. -/
theorem C4_witness :
    '@' ∉ "user".data
    ∧ ((FixLocalAddr "example.com".data { name := [], address := "user".data }).address
        = "user".data ++ '@' :: "example.com".data
      ∧ ('@' ∉ "example.com".data →
          (FixLocalAddr "example.com".data { name := [], address := "user".data }).address.count '@'
            = 1)
      ∧ FixLocalAddr "example.com".data
          (FixLocalAddr "example.com".data { name := [], address := "user".data })
        = FixLocalAddr "example.com".data { name := [], address := "user".data }) :=
  ⟨by decide,
    C4_applyLocalDomain_suffix_and_idempotent "example.com".data
      { name := [], address := "user".data } (by decide)⟩

/-- C2 counterexample: in dry-run mode with the 3-byte payload `"abc"`, no
network call happens, the payload is fully drained, a synthetic success is
reported — but the byte counter ends at 0, not at the payload size 3, because
the drain bypasses the counting wrapper. -/
theorem C2_counter_byte_counter_is_zero :
    (runPost false true (fun _ => .error "") (fun _ => .error "unreachable") "abc").crTotal
      ≠ "abc".length
    ∧ runPost false true (fun _ => .error "") (fun _ => .error "unreachable") "abc"
      = { networkSent := none, crTotal := 0, drained := 3, outcome := .disabledOK } := by
  exact ⟨by decide, rfl⟩

/-- C2 (amended): with transmission disabled (and debug capture off), `runPost`
performs no network call, drains the entire encoded payload from the conduit,
and reports the synthetic success — but the byte counter stays 0 rather than
reaching the payload size, since the drain reads the pipe directly instead of
going through the counting reader. -/
theorem C2_disable_mail_drains_and_skips_network
    (unmarshal : String → Except String MailResp)
    (net : String → Except String HTTPResponse) (payload : String) :
    runPost false true unmarshal net payload
      = { networkSent := none, crTotal := 0, drained := payload.length,
          outcome := .disabledOK } := rfl

/-- C5: with transmission enabled, when the network delivers a response:
on any non-200 status `runPost` dies with an error whose text ends with the
response body verbatim (even when that body is not JSON); on status 200 with a
fully readable body that the JSON decoder rejects, `runPost` dies with the
malformed-success-response error. -/
theorem C5_response_handling
    (unmarshal : String → Except String MailResp)
    (net : String → Except String HTTPResponse) (payload : String)
    (resp : HTTPResponse) (hnet : net payload = .ok resp) :
    (resp.status ≠ 200 →
        (runPost false false unmarshal net payload).outcome
          = .dieError ("sending mail: " ++ resp.statusText ++ "\n" ++ resp.body)
        ∧ ∃ pre, "sending mail: " ++ resp.statusText ++ "\n" ++ resp.body
            = pre ++ resp.body)
    ∧ (resp.status = 200 → resp.readErr = none →
        ∀ e, unmarshal resp.body = .error e →
          (runPost false false unmarshal net payload).outcome
            = .dieError ("sending mail: invalid JSON response: " ++ e ++ "\n" ++ resp.body)) := by
  constructor
  · intro h200
    refine ⟨?_, ⟨"sending mail: " ++ resp.statusText ++ "\n", rfl⟩⟩
    simp [runPost, readAllCounting, drainDirect, hnet, h200]
  · intro h200 hread e hu
    simp [runPost, readAllCounting, drainDirect, hnet, h200, hread, hu]

/-- Witness for C5 at a concrete HTTP 500 exchange with a plain-text body. -/
theorem C5_witness :
    net500 "p" = .ok resp500
    ∧ ((resp500.status ≠ 200 →
          (runPost false false unmarshalFail net500 "p").outcome
            = .dieError ("sending mail: " ++ resp500.statusText ++ "\n" ++ resp500.body)
          ∧ ∃ pre, "sending mail: " ++ resp500.statusText ++ "\n" ++ resp500.body
              = pre ++ resp500.body)
      ∧ (resp500.status = 200 → resp500.readErr = none →
          ∀ e, unmarshalFail resp500.body = .error e →
            (runPost false false unmarshalFail net500 "p").outcome
              = .dieError
                ("sending mail: invalid JSON response: " ++ e ++ "\n" ++ resp500.body))) :=
  ⟨rfl, C5_response_handling unmarshalFail net500 "p" resp500 rfl⟩

theorem prepareHeader_eq (h : Header) (fromStr : Line) :
    prepareHeader h fromStr
      = hdelete (if (hget h "From".data).length = 0
                 then hset h "From".data [fromStr] else h) "Bcc".data := rfl

theorem hdelete_cons (kv : Line × List Line) (rest : Header) (k : Line) :
    hdelete (kv :: rest) k
      = if kv.1 = k then hdelete rest k else kv :: hdelete rest k := by
  by_cases hk : kv.1 = k <;> simp [hdelete, List.filter_cons, hk]

theorem hlookup_append (k : Line) (l₁ l₂ : Header) :
    hlookup k (l₁ ++ l₂) = (hlookup k l₁).orElse (fun _ => hlookup k l₂) := by
  induction l₁ with
  | nil => rfl
  | cons kv rest ih =>
      by_cases hk : kv.1 = k <;> simp [hlookup, hk, ih]

theorem hlookup_hdelete_self (h : Header) (k : Line) :
    hlookup k (hdelete h k) = none := by
  induction h with
  | nil => rfl
  | cons kv rest ih =>
      rw [hdelete_cons]
      by_cases hk : kv.1 = k
      · rw [if_pos hk]; exact ih
      · rw [if_neg hk]
        simp only [hlookup]
        rw [if_neg hk]
        exact ih

theorem hlookup_hdelete_ne (h : Header) (k k' : Line) (hne : k' ≠ k) :
    hlookup k' (hdelete h k) = hlookup k' h := by
  induction h with
  | nil => rfl
  | cons kv rest ih =>
      rw [hdelete_cons]
      by_cases hk : kv.1 = k
      · have hkv : kv.1 ≠ k' := by rw [hk]; exact Ne.symm hne
        rw [if_pos hk, ih]
        simp only [hlookup]
        rw [if_neg hkv]
      · rw [if_neg hk]
        simp only [hlookup]
        by_cases hkv : kv.1 = k'
        · rw [if_pos hkv, if_pos hkv]
        · rw [if_neg hkv, if_neg hkv, ih]

theorem hlookup_hset_self (h : Header) (k : Line) (v : List Line) :
    hlookup k (hset h k v) = some v := by
  rw [hset, hlookup_append, hlookup_hdelete_self]
  simp [hlookup]

theorem hlookup_hset_ne (h : Header) (k k' : Line) (v : List Line) (hne : k' ≠ k) :
    hlookup k' (hset h k v) = hlookup k' h := by
  rw [hset, hlookup_append, hlookup_hdelete_ne h k k' hne]
  have hsingle : hlookup k' [(k, v)] = none := by
    simp only [hlookup]
    rw [if_neg (Ne.symm hne)]
  cases hl : hlookup k' h with
  | none => simp [hsingle]
  | some v' => simp

/-- C9: the header map fed to the renderer agrees with the ingested header on
every field other than `Bcc` and `From`; `Bcc` is gone; `From` is untouched
when the input had one and is exactly the one resolved sender line otherwise. -/
theorem C9_prepareHeader_frame (h : Header) (fromStr : Line) :
    hlookup "Bcc".data (prepareHeader h fromStr) = none
    ∧ ((hget h "From".data).length = 0 →
        hlookup "From".data (prepareHeader h fromStr) = some [fromStr])
    ∧ ((hget h "From".data).length ≠ 0 →
        hlookup "From".data (prepareHeader h fromStr) = hlookup "From".data h)
    ∧ (∀ k, k ≠ "Bcc".data → k ≠ "From".data →
        hlookup k (prepareHeader h fromStr) = hlookup k h) := by
  have hFB : ("From".data : Line) ≠ "Bcc".data := by decide
  refine ⟨?_, ?_, ?_, ?_⟩
  · exact hlookup_hdelete_self _ _
  · intro h0
    rw [prepareHeader_eq, if_pos h0, hlookup_hdelete_ne _ _ _ hFB, hlookup_hset_self]
  · intro h0
    rw [prepareHeader_eq, if_neg h0]
    exact hlookup_hdelete_ne _ _ _ hFB
  · intro k hkB hkF
    rw [prepareHeader_eq]
    by_cases h0 : (hget h "From".data).length = 0
    · rw [if_pos h0, hlookup_hdelete_ne _ _ _ hkB, hlookup_hset_ne _ _ _ _ hkF]
    · rw [if_neg h0]
      exact hlookup_hdelete_ne _ _ _ hkB

/-- Witness for C9: a two-field header with a `Bcc` field and no `From`. -/
theorem C9_witness :
    ((hget [("Subject".data, ["hi".data]), ("Bcc".data, ["b@x".data])] "From".data).length = 0
      → hlookup "From".data
          (prepareHeader [("Subject".data, ["hi".data]), ("Bcc".data, ["b@x".data])]
            "me@example.com".data)
        = some ["me@example.com".data])
    ∧ ("Subject".data : Line) ≠ "Bcc".data ∧ ("Subject".data : Line) ≠ "From".data
    ∧ hlookup "Subject".data
        (prepareHeader [("Subject".data, ["hi".data]), ("Bcc".data, ["b@x".data])]
          "me@example.com".data)
      = hlookup "Subject".data [("Subject".data, ["hi".data]), ("Bcc".data, ["b@x".data])] :=
  ⟨(C9_prepareHeader_frame [("Subject".data, ["hi".data]), ("Bcc".data, ["b@x".data])]
      "me@example.com".data).2.1,
    by decide, by decide,
    (C9_prepareHeader_frame [("Subject".data, ["hi".data]), ("Bcc".data, ["b@x".data])]
      "me@example.com".data).2.2.2 "Subject".data (by decide) (by decide)⟩

theorem hlookup_perm {h₁ h₂ : Header} (p : h₁.Perm h₂) (k : Line)
    (nd : (h₁.map Prod.fst).Nodup) :
    hlookup k h₁ = hlookup k h₂ := by
  induction p with
  | nil => rfl
  | cons x p ih =>
      simp only [hlookup]
      by_cases hx : x.1 = k
      · rw [if_pos hx, if_pos hx]
      · rw [if_neg hx, if_neg hx]
        exact ih (by simpa using nd.of_cons)
  | swap x y l =>
      have hxy : y.1 ≠ x.1 := by
        simp only [List.map_cons, List.nodup_cons, List.mem_cons] at nd
        exact fun e => nd.1 (Or.inl e)
      simp only [hlookup]
      by_cases hy : y.1 = k
      · rw [if_pos hy, if_neg (fun e => hxy (hy.trans e.symm)), if_pos hy]
      · by_cases hx : x.1 = k
        · rw [if_neg hy, if_pos hx, if_pos hx]
        · rw [if_neg hy, if_neg hx, if_neg hx, if_neg hy]
  | trans p₁ p₂ ih₁ ih₂ =>
      rw [ih₁ nd, ih₂ ((p₁.map Prod.fst).nodup_iff.mp nd)]

theorem renderKeys_perm {h₁ h₂ : Header} (p : h₁.Perm h₂) :
    renderKeys h₁ = renderKeys h₂ :=
  List.eq_of_perm_of_sorted
    (((List.perm_insertionSort _ _).trans (p.map Prod.fst)).trans
      (List.perm_insertionSort _ _).symm)
    (List.sorted_insertionSort _ _) (List.sorted_insertionSort _ _)

theorem hdrBlock_decomp (h : Header) :
    hdrBlock h = (hdrLines h).flatMap (fun l => l ++ ['\n']) ++ ['\n'] := by
  rw [hdrBlock, hdrLines, List.flatMap_assoc]
  congr 1
  apply List.flatMap_congr
  intro k _
  simp [List.flatMap_map, List.append_assoc]

theorem hdrLines_ne_nil (h : Header) : ∀ l ∈ hdrLines h, l ≠ [] := by
  intro l hl
  rw [hdrLines] at hl
  simp only [List.mem_flatMap, List.mem_map] at hl
  obtain ⟨k, _, v, _, rfl⟩ := hl
  simp

theorem splitLines_line_append (l s : Line) (hl : '\n' ∉ l) :
    splitLines (l ++ '\n' :: s) = (l ++ ['\n']) :: splitLines s := by
  induction l with
  | nil => simp [splitLines]
  | cons c l ih =>
      have hc : ¬ c = '\n' := fun e => hl (e ▸ List.mem_cons_self c l)
      have hl2 : '\n' ∉ l := fun m => hl (List.mem_cons_of_mem c m)
      rw [List.cons_append]
      simp only [splitLines]
      rw [ih hl2]
      simp [hc]

theorem splitLines_flatMap (ls : List Line) (s : Line) (h : ∀ l ∈ ls, '\n' ∉ l) :
    splitLines (ls.flatMap (fun l => l ++ ['\n']) ++ s)
      = ls.map (fun l => l ++ ['\n']) ++ splitLines s := by
  induction ls with
  | nil => simp
  | cons l ls ih =>
      rw [List.flatMap_cons, List.map_cons]
      have e : (l ++ ['\n']) ++ ls.flatMap (fun l => l ++ ['\n']) ++ s
          = l ++ '\n' :: (ls.flatMap (fun l => l ++ ['\n']) ++ s) := by
        simp [List.append_assoc]
      rw [e, splitLines_line_append _ _ (h l (List.mem_cons_self l ls)),
        ih (fun x hx => h x (List.mem_cons_of_mem l hx))]
      simp

theorem hlookup_mem {h : Header} {k : Line} {vs : List Line}
    (e : hlookup k h = some vs) : (k, vs) ∈ h := by
  induction h with
  | nil => exact absurd e (by simp [hlookup])
  | cons kv rest ih =>
      simp only [hlookup] at e
      by_cases hk : kv.1 = k
      · rw [if_pos hk] at e
        injection e with e2
        exact List.mem_cons.mpr (Or.inl (by rw [← hk, ← e2]))
      · rw [if_neg hk] at e
        exact List.mem_cons_of_mem kv (ih e)

theorem hdrLines_newline_free (h : Header)
    (hclean : ∀ kv ∈ h, '\n' ∉ kv.1 ∧ ∀ v ∈ kv.2, '\n' ∉ v) :
    ∀ l ∈ hdrLines h, '\n' ∉ l := by
  intro l hl
  rw [hdrLines] at hl
  simp only [List.mem_flatMap, List.mem_map] at hl
  obtain ⟨k, hk, v, hv, rfl⟩ := hl
  have hv2 : hlookup k h = some (hget h k) ∨ hget h k = [] := by
    rw [hget]
    cases hlookup k h with
    | none => right; rfl
    | some vs => left; rfl
  rcases hv2 with hv2 | hv2
  · have hc := hclean _ (hlookup_mem hv2)
    intro hn
    rcases List.mem_append.mp hn with hn | hn
    · rcases List.mem_append.mp hn with hn | hn
      · exact hc.1 hn
      · exact absurd hn (by decide)
    · exact hc.2 v hv hn
  · rw [hv2] at hv
    cases hv

/-- C8: the rendered header block lists the fields in sorted (lexicographic)
key order; it decomposes into newline-terminated non-empty header lines
followed by one final bare newline; when keys and values are newline-free its
line decomposition is exactly the field lines plus a single blank line at the
end (so exactly one blank line separates block and body); and its content does
not depend on the order in which the fields sit in the map. -/
theorem C8_render_sorted_single_blank (h : Header) :
    List.Sorted (· ≤ ·) (renderKeys h)
    ∧ hdrBlock h = (hdrLines h).flatMap (fun l => l ++ ['\n']) ++ ['\n']
    ∧ (∀ l ∈ hdrLines h, l ≠ [])
    ∧ ((∀ kv ∈ h, '\n' ∉ kv.1 ∧ ∀ v ∈ kv.2, '\n' ∉ v) →
        splitLines (hdrBlock h) = (hdrLines h).map (fun l => l ++ ['\n']) ++ [['\n']]
        ∧ (splitLines (hdrBlock h)).count ['\n'] = 1)
    ∧ (∀ h₂ : Header, h.Perm h₂ → (h.map Prod.fst).Nodup → hdrBlock h = hdrBlock h₂) := by
  refine ⟨List.sorted_insertionSort _ _, hdrBlock_decomp h, hdrLines_ne_nil h, ?_, ?_⟩
  · intro hclean
    have e := splitLines_flatMap (hdrLines h) ['\n'] (hdrLines_newline_free h hclean)
    have esp : splitLines ['\n'] = [['\n']] := rfl
    rw [hdrBlock_decomp h, e, esp]
    refine ⟨rfl, ?_⟩
    rw [List.count_append]
    have h0 : ((hdrLines h).map (fun l => l ++ ['\n'])).count ['\n'] = 0 := by
      apply List.count_eq_zero.mpr
      simp only [List.mem_map, not_exists]
      intro l
      intro hcon
      rcases hcon with ⟨hml, heq⟩
      have hlen : l.length + 1 = 1 := by
        have := congrArg List.length heq
        simpa using this
      exact hdrLines_ne_nil h l hml (List.length_eq_zero.mp (by omega))
    rw [h0]
    rfl
  · intro h₂ p nd
    have hlk : ∀ k, hget h k = hget h₂ k := fun k => by
      rw [hget, hget, hlookup_perm p k nd]
    rw [hdrBlock, hdrBlock, renderKeys_perm p]
    congr 1
    apply List.flatMap_congr
    intro k _
    rw [hlk k]

/-- Witness for C8: the newline-free and order-independence conjuncts at a
concrete two-field header and its transposition. -/
theorem C8_witness :
    (∀ kv ∈ ([("To".data, ["t@x".data]), ("From".data, ["f@x".data])] : Header),
        '\n' ∉ kv.1 ∧ ∀ v ∈ kv.2, '\n' ∉ v)
    ∧ (splitLines (hdrBlock [("To".data, ["t@x".data]), ("From".data, ["f@x".data])])).count
        ['\n'] = 1
    ∧ (([("To".data, ["t@x".data]), ("From".data, ["f@x".data])] : Header).Perm
        [("From".data, ["f@x".data]), ("To".data, ["t@x".data])])
    ∧ (([("To".data, ["t@x".data]), ("From".data, ["f@x".data])] : Header).map Prod.fst).Nodup
    ∧ hdrBlock [("To".data, ["t@x".data]), ("From".data, ["f@x".data])]
      = hdrBlock [("From".data, ["f@x".data]), ("To".data, ["t@x".data])] :=
  ⟨by decide,
    ((C8_render_sorted_single_blank
        [("To".data, ["t@x".data]), ("From".data, ["f@x".data])]).2.2.2.1 (by decide)).2,
    List.Perm.swap ("From".data, ["f@x".data]) ("To".data, ["t@x".data]) [],
    by decide,
    (C8_render_sorted_single_blank
        [("To".data, ["t@x".data]), ("From".data, ["f@x".data])]).2.2.2.2
      [("From".data, ["f@x".data]), ("To".data, ["t@x".data])]
      (List.Perm.swap ("From".data, ["f@x".data]) ("To".data, ["t@x".data]) [])
      (by decide)⟩

theorem except_bind_ok {α β γ : Type} (a : α) (f : α → Except γ β) :
    (Except.ok a >>= f) = f a := rfl

theorem except_bind_error {α β γ : Type} (e : γ) (f : α → Except γ β) :
    ((Except.error e : Except γ α) >>= f) = Except.error e := rfl

theorem extractRecipients_eq (parseList : Line → Except String (List MailAddress))
    (h : Header) (to0 : List MailAddress) :
    extractRecipients parseList h to0
      = extractStep parseList h to0 "To".data >>= fun a1 =>
        extractStep parseList h a1 "Cc".data >>= fun a2 =>
        extractStep parseList h a2 "Bcc".data := by
  rw [extractRecipients]
  simp only [List.foldlM_cons, List.foldlM_nil, bind_pure]

/-- C1: when a message carries bcc recipients, no transmitted header block
contains a `Bcc` field, yet the bcc addresses still reach the API's recipient
parameters.  Raw-relay path: the header map rendered for the raw-MIME post has
no `Bcc` entry at all, while `-t` extraction puts the parsed `Bcc` addresses
into the recipient list, which `MailMIME` turns into `to` form fields.
Structured path: `mg.Mail` transmits no header block, and every bcc address
becomes a `bcc` form field. -/
theorem C1_bcc_stripped_from_headers_still_sent
    (h : Header) (fromStr : Line)
    (parseList : Line → Except String (List MailAddress))
    (to0 res bccs : List MailAddress)
    (hbcc : hget h "Bcc".data ≠ [])
    (hparse : parseList (headerGet h "Bcc".data) = .ok bccs)
    (hex : extractRecipients parseList h to0 = .ok res)
    (domain : Line) (astr : MailAddress → Line) (msg : Message) :
    (∀ kv ∈ prepareHeader h fromStr, kv.1 ≠ "Bcc".data)
    ∧ (∀ a ∈ bccs, a ∈ res)
    ∧ (∀ a ∈ bccs,
        Part.field "to".data (astr (FixLocalAddr domain a)) ∈ MailMIMEParts domain astr res)
    ∧ (∀ a ∈ msg.BCC,
        Part.field "bcc".data (astr (FixLocalAddr domain a)) ∈ MailParts domain astr msg) := by
  have hmem : ∀ a ∈ bccs, a ∈ res := by
    rw [extractRecipients_eq] at hex
    rcases he1 : extractStep parseList h to0 "To".data with e1 | a1
    · rw [he1, except_bind_error] at hex
      exact absurd hex (by simp)
    · rw [he1, except_bind_ok] at hex
      rcases he2 : extractStep parseList h a1 "Cc".data with e2 | a2
      · rw [he2, except_bind_error] at hex
        exact absurd hex (by simp)
      · rw [he2, except_bind_ok] at hex
        have hlen : ¬ (hget h "Bcc".data).length = 0 :=
          fun e => hbcc (List.length_eq_zero.mp e)
        rw [extractStep, if_neg hlen, hparse] at hex
        have hres : a2 ++ bccs = res := by
          cases hex
          rfl
        intro a ha
        rw [← hres]
        exact List.mem_append_right a2 ha
  refine ⟨?_, hmem, ?_, ?_⟩
  · intro kv hkv
    rw [prepareHeader_eq, hdelete] at hkv
    exact of_decide_eq_true (List.mem_filter.mp hkv).2
  · intro a ha
    rw [MailMIMEParts, FixLocalAddrs]
    apply List.mem_append_left
    exact List.mem_map.mpr ⟨FixLocalAddr domain a, List.mem_map_of_mem _ (hmem a ha), rfl⟩
  · intro a ha
    rw [MailParts, FixLocalAddrs]
    refine List.mem_append_left _ (List.mem_append_left _ ?_)
    refine List.mem_append_left _ ?_
    refine List.mem_append_right _ ?_
    exact List.mem_map.mpr ⟨FixLocalAddr domain a, List.mem_map_of_mem _ ha, rfl⟩

/-- Witness for C1: a header whose only recipient field is one `Bcc` line,
with a parser stub resolving it to one address. -/
theorem C1_witness :
    hget [("Bcc".data, ["b@x".data])] "Bcc".data ≠ []
    ∧ (fun _ : Line =>
          (Except.ok [MailAddress.mk [] "b@x".data] : Except String (List MailAddress)))
        (headerGet [("Bcc".data, ["b@x".data])] "Bcc".data)
      = Except.ok [MailAddress.mk [] "b@x".data]
    ∧ extractRecipients (fun _ => .ok [MailAddress.mk [] "b@x".data])
        [("Bcc".data, ["b@x".data])] []
      = .ok [MailAddress.mk [] "b@x".data]
    ∧ (∀ kv ∈ prepareHeader [("Bcc".data, ["b@x".data])] "me@x".data, kv.1 ≠ "Bcc".data)
    ∧ (∀ a ∈ [MailAddress.mk [] "b@x".data],
        Part.field "to".data
            ((fun a : MailAddress => a.address) (FixLocalAddr "x.com".data a))
          ∈ MailMIMEParts "x.com".data (fun a => a.address) [MailAddress.mk [] "b@x".data]) :=
  ⟨by decide, rfl, rfl,
    (C1_bcc_stripped_from_headers_still_sent
      [("Bcc".data, ["b@x".data])] "me@x".data
      (fun _ => .ok [MailAddress.mk [] "b@x".data])
      [] [MailAddress.mk [] "b@x".data] [MailAddress.mk [] "b@x".data]
      (by decide) rfl rfl
      "x.com".data (fun a => a.address)
      (Message.mk (MailAddress.mk [] []) [] [] [] [] [] [])).1,
    (C1_bcc_stripped_from_headers_still_sent
      [("Bcc".data, ["b@x".data])] "me@x".data
      (fun _ => .ok [MailAddress.mk [] "b@x".data])
      [] [MailAddress.mk [] "b@x".data] [MailAddress.mk [] "b@x".data]
      (by decide) rfl rfl
      "x.com".data (fun a => a.address)
      (Message.mk (MailAddress.mk [] []) [] [] [] [] [] [])).2.2.1⟩

/-- C6: on the terminal-backed stream `Subject: hi\n`, `\n`, `hello\n`, `.\n`
with header harvesting on and dot-termination enabled, ingestion stops at the
dot line leaving any further input unread; the only harvested header field is
the subject `hi`; and the accumulated body is exactly `hello\n`.  The same
stream through mailgun-sendmail's `msgCopy` relays `Subject: hi\n\nhello\n`
and stops at the dot line. -/
theorem C6_dot_terminated_scenario
    (parseList : Line → Except String (List MailAddress)) (st0 : TState)
    (extra : List Line) :
    tLoop true parseList st0
        ("Subject: hi\n".data :: "\n".data :: "hello\n".data :: ['.', '\n'] :: extra)
      = ({ st0 with subject := "hi".data },
         "hello\n".data :: ['.', '\n'] :: extra, .headerEnd)
    ∧ bodyLoopTTY ("hello\n".data :: ['.', '\n'] :: extra) = ("hello\n".data, extra)
    ∧ msgCopy true false
        ("Subject: hi\n".data :: "\n".data :: "hello\n".data :: ['.', '\n'] :: extra)
      = ("Subject: hi\n\nhello\n".data, extra, .dotStop) := by
  refine ⟨rfl, ?_, ?_⟩
  · rfl
  · rfl

/-- C7: while in header mode, a line that neither starts with whitespace nor
contains a `:` (and is not the TTY dot terminator) ends the header block: the
loop continues in body mode, the line is emitted with a synthetic blank line
right before it exactly when the line is not itself blank, and in that case
the emitted stream starts with a blank line, so its header block is empty. -/
theorem C7_header_end_inserts_blank (isTTY iflag : Bool) (l : Line) (rest : List Line)
    (hne : l ≠ []) (hsp : l.head? ≠ some ' ') (htab : l.head? ≠ some '\t')
    (hcol : ':' ∉ l)
    (hdot : ¬ (isTTY = true ∧ iflag = false ∧ l = ['.', '\n'])) :
    (msgCopyGo isTTY iflag true (l :: rest)).1
      = (if l.head? ≠ some '\n' then ['\n'] else []) ++ l
        ++ (if l.getLast? ≠ some '\n' then ['\n'] else [])
        ++ (msgCopyGo isTTY iflag false rest).1
    ∧ (msgCopyGo isTTY iflag true (l :: rest)).2 = (msgCopyGo isTTY iflag false rest).2
    ∧ (l.head? ≠ some '\n' →
        headerBlockLines (msgCopyGo isTTY iflag true (l :: rest)).1 = []) := by
  have hstep : msgCopyGo isTTY iflag true (l :: rest)
      = ((if l.head? ≠ some '\n' then ['\n'] else []) ++ l
          ++ (if l.getLast? ≠ some '\n' then ['\n'] else [])
          ++ (msgCopyGo isTTY iflag false rest).1,
         (msgCopyGo isTTY iflag false rest).2.1,
         (msgCopyGo isTTY iflag false rest).2.2) := by
    simp only [msgCopyGo]
    rw [if_neg hne, if_neg hdot, if_pos ⟨True.intro, hsp, htab, hcol⟩]
  refine ⟨by rw [hstep], by rw [hstep], ?_⟩
  intro hblank
  rw [hstep]
  simp only [if_pos hblank, List.cons_append]
  rw [headerBlockLines, splitLines]
  simp [List.takeWhile_cons]

/-- Witness for C7: input whose very first line is plain body text. -/
theorem C7_witness :
    ("hello world\n".data ≠ []
      ∧ "hello world\n".data.head? ≠ some ' '
      ∧ "hello world\n".data.head? ≠ some '\t'
      ∧ ':' ∉ "hello world\n".data
      ∧ ¬ (false = true ∧ false = false ∧ "hello world\n".data = ['.', '\n']))
    ∧ ((msgCopyGo false false true ["hello world\n".data]).1
        = (if "hello world\n".data.head? ≠ some '\n' then ['\n'] else [])
          ++ "hello world\n".data
          ++ (if "hello world\n".data.getLast? ≠ some '\n' then ['\n'] else [])
          ++ (msgCopyGo false false false []).1
      ∧ (msgCopyGo false false true ["hello world\n".data]).2
        = (msgCopyGo false false false []).2
      ∧ ("hello world\n".data.head? ≠ some '\n' →
          headerBlockLines (msgCopyGo false false true ["hello world\n".data]).1 = [])) :=
  ⟨⟨by decide, by decide, by decide, by decide, by decide⟩,
    C7_header_end_inserts_blank false false "hello world\n".data []
      (by decide) (by decide) (by decide) (by decide) (by decide)⟩

end Mailgun
